import Mathlib

/-!
Verification of the schema-evolving Mongo-to-Postgres replication worker
(`mongo_to_postgres_worker.py`) against its natural-language specification.

The Python source is shallowly embedded: Mongo/BSON values become the
inductive `Value`; Python dicts become association lists looked up by key;
the eight Postgres sink types become `PgType`; fallible code returns
`Option`/`Except`.  Python primitives that the worker calls
(`str`, `repr`, truthiness, `int()`/`float()`/`Decimal()` coercions) are
modelled as explicit functions; where a primitive's exact output format is
irrelevant to every property proved here (e.g. the repr of a float), the
model picks one concrete, documented rendering.
-/

/-- Mongo/BSON value as seen by the worker: the Python types the source
dispatches on (`None`, `bool`, `int`, `float`, `Decimal`, `Decimal128`,
`datetime`, `bytes`, `ObjectId`, `str`, `list`, `dict`).
`float` carries a finiteness flag plus a rational payload (binary64 values
are dyadic rationals); `decimal`/`decimal128` carry a finiteness flag plus
the canonical string form `str(...)` would print; `timestamp` carries its
`isoformat()` string; `objectId` carries its 24-hex string. -/
inductive Value where
  | null
  | bool (b : Bool)
  | int (n : Int)
  | float (finite : Bool) (q : ℚ)
  | decimal (finite : Bool) (s : String)
  | decimal128 (finite : Bool) (s : String)
  | timestamp (iso : String)
  | bytes (bs : List Nat)
  | objectId (hex : String)
  | str (s : String)
  | arr (xs : List Value)
  | obj (kvs : List (String × Value))

/-- A Python dict (a Mongo document): association list with unique keys. -/
abbrev Doc := List (String × Value)

/-- FK_EXTRACT_FIELDS configuration table, verbatim from the source. -/
def FK_EXTRACT_FIELDS : List (String × List String) :=
  [("users", ["department", "admin"]),
   ("patients", ["admin", "contact_id"]),
   ("phonebooks", ["admin"]),
   ("branches", ["admin"]),
   ("departments", ["admin"]),
   ("appointments", ["user_id", "admin", "department_id", "branch_id", "contact_id"])]

/-- JUNCTION_TABLE_FIELDS configuration table, verbatim from the source. -/
def JUNCTION_TABLE_FIELDS : List (String × List (String × String)) :=
  [("users", [("branch", "branches")]),
   ("phonebooks", [("branch", "branches")])]

/-- Source `should_extract_as_fk`. -/
def should_extract_as_fk (collection_name field_name : String) : Bool :=
  ((FK_EXTRACT_FIELDS.lookup collection_name).getD []).contains field_name

/-- Source `is_junction_table_field`. -/
def is_junction_table_field (collection_name field_name : String) : Bool :=
  (((JUNCTION_TABLE_FIELDS.lookup collection_name).getD []).lookup field_name).isSome

/-- Source `get_junction_target`. -/
def get_junction_target (collection_name field_name : String) : Option String :=
  ((JUNCTION_TABLE_FIELDS.lookup collection_name).getD []).lookup field_name

/-- An apostrophe character, built numerically (code point 39). -/
def apos : String := String.singleton (Char.ofNat 39)

/-- Hex digit character for a nibble (lowercase, as Python `hex`). -/
def hexDigit (n : Nat) : Char :=
  if n < 10 then Char.ofNat (48 + n) else Char.ofNat (87 + n)

/-- Two lowercase hex characters for one byte. -/
def byteHex (b : Nat) : String := String.mk [hexDigit (b / 16 % 16), hexDigit (b % 16)]

/-- Lowercase hex of a byte string (Python `bytes(value).hex()`). -/
def bytesHex (bs : List Nat) : String := String.join (bs.map byteHex)

/-- Left-pad a string with zeros to the given length. -/
def padZeros (k : Nat) (s : String) : String :=
  String.mk (List.replicate (k - s.length) (Char.ofNat 48)) ++ s

/-- Smallest exponent k ≤ 64 with d ∣ 10^k, if any (64 covers every
binary64 denominator). -/
def decExp (d : Nat) : Option Nat := (List.range 65).find? (fun k => 10 ^ k % d = 0)

/-- Finite decimal rendering of a rational whose denominator divides a power
of ten; used to model Python float repr (binary64 values are dyadic, hence
always in this class). -/
def ratDecRepr (q : ℚ) : String :=
  match decExp q.den with
  | some 0 => (if q.num < 0 then "-" else "") ++ toString q.num.natAbs ++ ".0"
  | some k =>
      let scaled := q.num.natAbs * (10 ^ k / q.den)
      (if q.num < 0 then "-" else "") ++ toString (scaled / 10 ^ k) ++ "." ++
        padZeros k (toString (scaled % 10 ^ k))
  | none => toString q

/-- Python `repr(float)` / `str(float)`, modelled: finite values render as a
decimal expansion, non-finite as "inf". -/
def floatRepr (finite : Bool) (q : ℚ) : String :=
  if finite then ratDecRepr q else "inf"

/-- Python `repr(value)` for the embedded value domain (model; containers
recurse with repr exactly as Python does). -/
def pyRepr : Value → String
  | .null => "None"
  | .bool true => "True"
  | .bool false => "False"
  | .int n => toString n
  | .float f q => floatRepr f q
  | .decimal _ s => "Decimal(" ++ apos ++ s ++ apos ++ ")"
  | .decimal128 _ s => "Decimal128(" ++ apos ++ s ++ apos ++ ")"
  | .timestamp iso => "datetime.datetime(" ++ iso ++ ")"
  | .bytes bs => "b" ++ apos ++ bytesHex bs ++ apos
  | .objectId h => "ObjectId(" ++ apos ++ h ++ apos ++ ")"
  | .str s => apos ++ s ++ apos
  | .arr xs => "[" ++ String.intercalate ", " (xs.attach.map (fun x => pyRepr x.1)) ++ "]"
  | .obj kvs => "\x7b" ++ String.intercalate ", "
      (kvs.attach.map (fun kv => apos ++ kv.1.1 ++ apos ++ ": " ++ pyRepr kv.1.2)) ++ "\x7d"
decreasing_by
  all_goals simp_wf
  · have := List.sizeOf_lt_of_mem x.2; omega
  · have h1 := List.sizeOf_lt_of_mem kv.2
    have h2 : sizeOf kv.1.2 < sizeOf kv.1 := by
      obtain ⟨⟨a, b⟩, hm⟩ := kv; simp
    omega

/-- Replace the "T" date-time separator with a space (`str(datetime)`). -/
def isoSpace (iso : String) : String := iso.replace "T" " "

/-- Python `str(value)` for the embedded value domain. -/
def pyStr : Value → String
  | .str s => s
  | .objectId h => h
  | .decimal _ s => s
  | .decimal128 _ s => s
  | .timestamp iso => isoSpace iso
  | v => pyRepr v

/-- Python truthiness of a value (`bool(value)`), for the embedded domain.
`Decimal128` defines no `__bool__`, so it is always truthy. -/
def pyTruthy : Value → Bool
  | .null => false
  | .bool b => b
  | .int n => n != 0
  | .float f q => if f then q != 0 else true
  | .decimal f s =>
      if f then
        !((s.toList.takeWhile (fun c => c ≠ 'E' ∧ c ≠ 'e')).all
            (fun c => ¬('1' ≤ c ∧ c ≤ '9')))
      else true
  | .decimal128 _ _ => true
  | .timestamp _ => true
  | .bytes bs => !bs.isEmpty
  | .objectId _ => true
  | .str s => s != ""
  | .arr xs => !xs.isEmpty
  | .obj kvs => !kvs.isEmpty

/-- The eight Postgres sink types the worker infers. -/
inductive PgType where
  | boolean
  | bigint
  | doublePrecision
  | numeric
  | timestamptz
  | text
  | bytea
  | jsonb
deriving DecidableEq, Repr

/-- Source `extract_objectid`: extract an ObjectId string from the various
Mongo formats; `none` models Python `None`. -/
def extract_objectid : Value → Option String
  | .null => none
  | .objectId h => some h
  | .str s => some s
  | .obj kvs =>
      if (kvs.lookup "$oid").isSome ∧ kvs.length = 1 then
        some (pyStr ((kvs.lookup "$oid").getD .null))
      else if (kvs.lookup "_id").isSome ∧ kvs.length = 1 then
        match kvs.lookup "_id" with
        | some (.objectId h) => some h
        | some oid => if pyTruthy oid then some (pyStr oid) else none
        | none => none
      else none
  | _ => none

/-- Source `infer_pg_type`: context-free type inference from a value. -/
def infer_pg_type : Value → PgType
  | .null => .jsonb
  | .bool _ => .boolean
  | .int _ => .bigint
  | .float _ _ => .doublePrecision
  | .decimal128 _ _ => .numeric
  | .decimal _ _ => .numeric
  | .timestamp _ => .timestamptz
  | .objectId _ => .text
  | .str _ => .text
  | .arr _ => .jsonb
  | .obj _ => .jsonb
  | .bytes _ => .bytea

/-- Whether a value is Python `None`. -/
def isNull : Value → Bool
  | .null => true
  | _ => false

/-- Source `infer_pg_type_with_context`: junction fields are skipped
(`none`); fk-extract fields infer `text` when extraction succeeds or the
value is null; otherwise fall through to `infer_pg_type`. -/
def infer_pg_type_with_context (value : Value) (collection_name field_name : String) :
    Option PgType :=
  if is_junction_table_field collection_name field_name then none
  else if should_extract_as_fk collection_name field_name &&
      ((extract_objectid value).isSome || isNull value) then some .text
  else some (infer_pg_type value)

/-- Source `is_type_compatible`: context-free compatibility of a value with
a column type. -/
def is_type_compatible (value : Value) (pg_type : PgType) : Bool :=
  match value with
  | .null => true
  | v =>
    match pg_type with
    | .jsonb => true
    | .text =>
        match v with
        | .arr _ => false
        | .obj _ => false
        | _ => true
    | .bigint => match v with | .int _ => true | _ => false
    | .doublePrecision => match v with | .int _ => true | .float _ _ => true | _ => false
    | .numeric =>
        match v with
        | .int _ => true
        | .float _ _ => true
        | .decimal _ _ => true
        | .decimal128 _ _ => true
        | _ => false
    | .boolean => match v with | .bool _ => true | _ => false
    | .timestamptz => match v with | .timestamp _ => true | _ => false
    | .bytea => match v with | .bytes _ => true | _ => false

/-- Source `is_type_compatible_with_context`: for a text column on an
fk-extract field, compatibility is exactly extractability; otherwise the
context-free check. -/
def is_type_compatible_with_context (value : Value) (pg_type : PgType)
    (collection_name field_name : String) : Bool :=
  match value with
  | .null => true
  | v =>
    if pg_type = .text ∧ should_extract_as_fk collection_name field_name then
      (extract_objectid v).isSome
    else is_type_compatible v pg_type

/-- Source `to_json_compatible`: recursive JSON normalization (non-finite
floats and decimals to null, object-ids to hex strings, decimals to their
canonical string, timestamps to ISO-8601, bytes to lowercase hex,
containers recursed, everything else unchanged). -/
def to_json_compatible : Value → Value
  | .float f q => if f then .float f q else .null
  | .objectId h => .str h
  | .decimal128 f s => if f then .str s else .null
  | .decimal f s => if f then .str s else .null
  | .timestamp iso => .str iso
  | .bytes bs => .str (bytesHex bs)
  | .arr xs => .arr (xs.attach.map (fun x => to_json_compatible x.1))
  | .obj kvs => .obj (kvs.attach.map (fun kv => (kv.1.1, to_json_compatible kv.1.2)))
  | v => v
decreasing_by
  all_goals simp_wf
  · have := List.sizeOf_lt_of_mem x.2; omega
  · have h1 := List.sizeOf_lt_of_mem kv.2
    have h2 : sizeOf kv.1.2 < sizeOf kv.1 := by
      obtain ⟨⟨a, b⟩, hm⟩ := kv; simp
    omega

/-- Unfolding lemma: normalization maps over array elements. -/
theorem tjc_arr (xs : List Value) :
    to_json_compatible (.arr xs) = .arr (xs.map to_json_compatible) := by
  rw [to_json_compatible]
  simp

/-- Unfolding lemma: normalization maps over object values. -/
theorem tjc_obj (kvs : List (String × Value)) :
    to_json_compatible (.obj kvs) =
      .obj (kvs.map (fun kv => (kv.1, to_json_compatible kv.2))) := by
  rw [to_json_compatible]
  exact congrArg Value.obj (List.attach_map_val kvs (fun kv => (kv.1, to_json_compatible kv.2)))

/-- C7: JSON-normalization idempotence — for every value built from null,
booleans, integers, floats, decimals (Decimal and Decimal128), timestamps,
byte strings, object-ids, strings, arrays, and objects, applying
`to_json_compatible` twice yields the same result as applying it once. -/
theorem c7_json_normalization_idempotent (v : Value) :
    to_json_compatible (to_json_compatible v) = to_json_compatible v := by
  match v with
  | .null => simp [to_json_compatible]
  | .bool b => simp [to_json_compatible]
  | .int n => simp [to_json_compatible]
  | .str s => simp [to_json_compatible]
  | .float f q => cases f <;> simp [to_json_compatible]
  | .decimal f s => cases f <;> simp [to_json_compatible]
  | .decimal128 f s => cases f <;> simp [to_json_compatible]
  | .timestamp iso => simp [to_json_compatible]
  | .bytes bs => simp [to_json_compatible]
  | .objectId h => simp [to_json_compatible]
  | .arr xs =>
      rw [tjc_arr, tjc_arr, List.map_map]
      congr 1
      exact List.map_congr_left fun x hx => c7_json_normalization_idempotent x
  | .obj kvs =>
      rw [tjc_obj, tjc_obj, List.map_map]
      congr 1
      exact List.map_congr_left fun kv hkv => by
        simp [c7_json_normalization_idempotent kv.2]
termination_by sizeOf v
decreasing_by
  · have := List.sizeOf_lt_of_mem hx; simp; omega
  · have h1 := List.sizeOf_lt_of_mem hkv
    have h2 : sizeOf kv.2 < sizeOf kv := by obtain ⟨a, b⟩ := kv; simp
    simp; omega

/-- Spec-side predicate (from the spec words for C2): the value is a
scalar, i.e. not an array or object. -/
def specScalar : Value → Bool
  | .arr _ => false
  | .obj _ => false
  | _ => true

/-- Hex digit character test (for the spec-side hex-24 reference form). -/
def isHexChar (c : Char) : Bool :=
  c.isDigit || ('a' ≤ c && c ≤ 'f') || ('A' ≤ c && c ≤ 'F')

/-- Spec-side predicate (from the claim words for C3): a reference can be
extracted — a single hex-24 string, an object-id, or the single-key dict
forms with key "$oid" or "_id". -/
def specRefExtractable : Value → Bool
  | .objectId _ => true
  | .str s => s.length == 24 && s.toList.all isHexChar
  | .obj kvs => kvs.length == 1 &&
      ((kvs.lookup "$oid").isSome || (kvs.lookup "_id").isSome)
  | _ => false

/-- C2 counterexample: the claim says a non-null scalar (here the integer
5) is compatible with a `text` column even on an fk-extract field
(`users.department`); the code returns false there, because for fk-extract
fields compatibility is extractability alone. -/
theorem c2_counterexample :
    ¬ (is_type_compatible_with_context (.int 5) .text "users" "department" =
        (isNull (.int 5) || specScalar (.int 5) ||
          (should_extract_as_fk "users" "department" &&
            (extract_objectid (.int 5)).isSome))) := by
  decide

/-- C2 amended: the compatibility check against `text` returns true exactly
when v is null, or (the field is an fk-extract field and a reference can be
extracted from v by `extract_objectid`), or (the field is not an fk-extract
field and v is not an array or object).  A non-null scalar that is not an
extractable reference is NOT compatible on an fk-extract field. -/
theorem c2_text_compatibility_amended (v : Value) (c f : String) :
    is_type_compatible_with_context v .text c f =
      (isNull v ||
        (if should_extract_as_fk c f then (extract_objectid v).isSome else specScalar v)) := by
  by_cases hfk : should_extract_as_fk c f <;>
    cases v <;>
      simp [is_type_compatible_with_context, is_type_compatible, isNull, specScalar, hfk]

/-- C3 counterexample: on the fk-extract field `users.department` the
claim's rule (text exactly when a spec-extractable reference, otherwise
fall through to the context-free table, so null infers jsonb) is violated
at the value null: the code infers `text` for null. -/
theorem c3_counterexample :
    infer_pg_type_with_context .null "users" "department" ≠
      some (if specRefExtractable .null then PgType.text else infer_pg_type .null) := by
  decide

/-- C3 amended: for an fk-extract (non-junction) field, inference with
context returns `text` exactly when the value is null or `extract_objectid`
succeeds — and that extractor accepts any string (no hex-24 check), any
object-id, the single-key form with key "$oid" for any payload, and the
single-key form with key "_id" for object-id or truthy payloads; for every
other value the inference falls through to the context-free table. -/
theorem c3_fk_inference_amended (v : Value) (c f : String)
    (hfk : should_extract_as_fk c f = true)
    (hj : is_junction_table_field c f = false) :
    infer_pg_type_with_context v c f =
      some (if isNull v || (extract_objectid v).isSome then PgType.text
            else infer_pg_type v) := by
  by_cases he : (extract_objectid v).isSome <;> by_cases hn : isNull v = true <;>
    simp [infer_pg_type_with_context, hfk, hj, he, hn]

/-- Witness for the amended C3 theorem at the fk-extract field
`users.department` and the value 3 (non-null, non-extractable: inference
falls through to `bigint`). -/
theorem c3_fk_inference_amended_witness :
    infer_pg_type_with_context (.int 3) "users" "department" =
      some (if isNull (.int 3) || (extract_objectid (.int 3)).isSome then PgType.text
            else infer_pg_type (.int 3)) :=
  c3_fk_inference_amended (.int 3) "users" "department" (by decide) (by decide)

/-- Registry-recorded type of a column: the "pending" reservation written by
`get_or_create_column_name`, or a concrete Postgres type. -/
inductive RegType where
  | pending
  | ofType (t : PgType)
deriving DecidableEq, Repr

/-- Everything is compatible with a jsonb column, with or without context. -/
theorem compat_jsonb (v : Value) (c f : String) :
    is_type_compatible_with_context v .jsonb c f = true := by
  cases v <;> simp [is_type_compatible_with_context, is_type_compatible]

/-- One execution of the per-field body of `ensure_columns_for_document` for
field `f` of collection `c` on value `v`, acting on the registry-recorded
type of that column (`none` = no registry row yet).  The second component
is the list of type values newly recorded in the registry by this step:
an unregistered column is inserted as `pending` by
`get_or_create_column_name` and then set to the context-inferred type by
`update_column_type`; a column whose registry row is still `pending` is
invisible in the in-memory state (`load_columns` filters pending), so the
code re-enters the creation branch, finds the existing row and records the
inferred type; an incompatible value triggers `promote_column_to_jsonb`
followed by `update_column_type` to jsonb. -/
def ensureFieldStep (c f : String) (v : Value) (rt : Option RegType) :
    Option RegType × List RegType :=
  if is_junction_table_field c f then (rt, [])
  else
    match rt with
    | none =>
        match infer_pg_type_with_context v c f with
        | none => (none, [])
        | some t => (some (.ofType t), [.pending, .ofType t])
    | some .pending =>
        match infer_pg_type_with_context v c f with
        | none => (some .pending, [])
        | some t => (some (.ofType t), [.ofType t])
    | some (.ofType t) =>
        if is_type_compatible_with_context v t c f then (some (.ofType t), [])
        else (some (.ofType .jsonb), [.ofType .jsonb])

/-- A schema-affecting event for one column over a run of the engine:
either a full per-field pass of `ensure_columns_for_document`, or a pass
that crashed between the `pending` registry insert and the subsequent
`update_column_type` (the only interruption point that leaves a distinct
registry write behind). -/
inductive SchemaEv where
  | process (v : Value)
  | partialRegister (v : Value)

/-- Effect of one event on the registry-recorded type, with the list of
newly recorded type values. -/
def schemaEvStep (c f : String) (ev : SchemaEv) (rt : Option RegType) :
    Option RegType × List RegType :=
  match ev with
  | .process v => ensureFieldStep c f v rt
  | .partialRegister v =>
      if is_junction_table_field c f then (rt, [])
      else
        match rt with
        | none =>
            match infer_pg_type_with_context v c f with
            | none => (none, [])
            | some _ => (some .pending, [.pending])
        | some r => (some r, [])

/-- The sequence of types recorded in the registry for one column over a
run (possibly spanning crashes) of the engine. -/
def schemaTrace (c f : String) (rt : Option RegType) : List SchemaEv → List RegType
  | [] => []
  | ev :: evs =>
      let s := schemaEvStep c f ev rt
      s.2 ++ schemaTrace c f s.1 evs

/-- From a jsonb-typed column no event records anything. -/
theorem schemaTrace_jsonb (c f : String) (evs : List SchemaEv) :
    schemaTrace c f (some (RegType.ofType PgType.jsonb)) evs = [] := by
  induction evs with
  | nil => rfl
  | cons ev evs ih =>
      cases ev with
      | process v =>
          simpa [schemaTrace, schemaEvStep, ensureFieldStep, compat_jsonb] using ih
      | partialRegister v =>
          simpa [schemaTrace, schemaEvStep] using ih

/-- From a concretely typed column the remaining recorded types are a
prefix of `[jsonb]`. -/
theorem schemaTrace_ofType (c f : String) (t : PgType) (evs : List SchemaEv) :
    schemaTrace c f (some (RegType.ofType t)) evs <+: [RegType.ofType PgType.jsonb] := by
  induction evs generalizing t with
  | nil => exact List.nil_prefix
  | cons ev evs ih =>
      cases ev with
      | process v =>
          by_cases hj : is_junction_table_field c f
          · simpa [schemaTrace, schemaEvStep, ensureFieldStep, hj] using ih t
          · by_cases hc : is_type_compatible_with_context v t c f
            · simpa [schemaTrace, schemaEvStep, ensureFieldStep, hj, hc] using ih t
            · simp [schemaTrace, schemaEvStep, ensureFieldStep, hj, hc, schemaTrace_jsonb]
      | partialRegister v =>
          by_cases hj : is_junction_table_field c f
          · simpa [schemaTrace, schemaEvStep, hj] using ih t
          · simpa [schemaTrace, schemaEvStep, hj] using ih t

/-- From a pending column the remaining recorded types are a prefix of
`[T, jsonb]` for some type T. -/
theorem schemaTrace_pending (c f : String) (evs : List SchemaEv) :
    ∃ T, schemaTrace c f (some RegType.pending) evs <+:
      [RegType.ofType T, RegType.ofType PgType.jsonb] := by
  induction evs with
  | nil => exact ⟨PgType.jsonb, List.nil_prefix⟩
  | cons ev evs ih =>
      cases ev with
      | process v =>
          by_cases hj : is_junction_table_field c f
          · simpa [schemaTrace, schemaEvStep, ensureFieldStep, hj] using ih
          · cases hi : infer_pg_type_with_context v c f with
            | none => simpa [schemaTrace, schemaEvStep, ensureFieldStep, hj, hi] using ih
            | some t =>
                refine ⟨t, ?_⟩
                simp [schemaTrace, schemaEvStep, ensureFieldStep, hj, hi]
                obtain ⟨r, hr⟩ := schemaTrace_ofType c f t evs
                exact ⟨r, by simp [← hr]⟩
      | partialRegister v =>
          by_cases hj : is_junction_table_field c f
          · simpa [schemaTrace, schemaEvStep, hj] using ih
          · simpa [schemaTrace, schemaEvStep, hj] using ih

/-- C1: schema monotonicity — over any run of the engine (including runs
interrupted between the pending insert and the type update) the sequence
of types recorded for a column is a prefix of `(pending, T, jsonb)` for
some type T; once jsonb, no event changes the recorded type; and a
concretely typed column is only ever changed to jsonb, never to a
different concrete type. -/
theorem c1_schema_monotonicity (c f : String) (evs : List SchemaEv) :
    (∃ T, schemaTrace c f none evs <+:
      [RegType.pending, RegType.ofType T, RegType.ofType PgType.jsonb]) ∧
    (∀ ev, (schemaEvStep c f ev (some (RegType.ofType PgType.jsonb))).1 =
      some (RegType.ofType PgType.jsonb)) ∧
    (∀ ev t t', (schemaEvStep c f ev (some (RegType.ofType t))).1 =
      some (RegType.ofType t') → t' = t ∨ t' = PgType.jsonb) := by
  refine ⟨?_, ?_, ?_⟩
  · induction evs with
    | nil => exact ⟨PgType.jsonb, List.nil_prefix⟩
    | cons ev evs ih =>
        cases ev with
        | process v =>
            by_cases hj : is_junction_table_field c f
            · simpa [schemaTrace, schemaEvStep, ensureFieldStep, hj] using ih
            · cases hi : infer_pg_type_with_context v c f with
              | none => simpa [schemaTrace, schemaEvStep, ensureFieldStep, hj, hi] using ih
              | some t =>
                  refine ⟨t, ?_⟩
                  simp [schemaTrace, schemaEvStep, ensureFieldStep, hj, hi]
                  obtain ⟨r, hr⟩ := schemaTrace_ofType c f t evs
                  exact ⟨r, by simp [← hr]⟩
        | partialRegister v =>
            by_cases hj : is_junction_table_field c f
            · simpa [schemaTrace, schemaEvStep, hj] using ih
            · cases hi : infer_pg_type_with_context v c f with
              | none => simpa [schemaTrace, schemaEvStep, hj, hi] using ih
              | some t =>
                  obtain ⟨T, r, hr⟩ := schemaTrace_pending c f evs
                  refine ⟨T, r, ?_⟩
                  simp [schemaTrace, schemaEvStep, hj, hi, ← hr]
  · intro ev
    cases ev with
    | process v =>
        simp [schemaEvStep, ensureFieldStep, compat_jsonb]
    | partialRegister v =>
        simp [schemaEvStep]
  · intro ev t t' hstep
    cases ev with
    | process v =>
        by_cases hj : is_junction_table_field c f
        · simp [schemaEvStep, ensureFieldStep, hj] at hstep
          exact Or.inl hstep.symm
        · by_cases hc : is_type_compatible_with_context v t c f
          · simp [schemaEvStep, ensureFieldStep, hj, hc] at hstep
            exact Or.inl hstep.symm
          · simp [schemaEvStep, ensureFieldStep, hj, hc] at hstep
            exact Or.inr hstep.symm
    | partialRegister v =>
        by_cases hj : is_junction_table_field c f
        · simp [schemaEvStep, hj] at hstep
          exact Or.inl hstep.symm
        · simp [schemaEvStep, hj] at hstep
          exact Or.inl hstep.symm

/-- Witness for C1 at a concrete run: field `name` of collection `users`,
first an integer (column created as bigint) then a string (promotion to
jsonb); and the concrete-to-concrete clause at bigint with a string value. -/
theorem c1_schema_monotonicity_witness :
    (∃ T, schemaTrace "users" "name" none
        [SchemaEv.process (.int 1), SchemaEv.process (.str "x")] <+:
      [RegType.pending, RegType.ofType T, RegType.ofType PgType.jsonb]) ∧
    (PgType.jsonb = PgType.bigint ∨ PgType.jsonb = PgType.jsonb) :=
  ⟨(c1_schema_monotonicity "users" "name"
      [SchemaEv.process (.int 1), SchemaEv.process (.str "x")]).1,
   (c1_schema_monotonicity "users" "name" []).2.2 (SchemaEv.process (.str "x"))
      PgType.bigint PgType.jsonb (by decide)⟩

/-- Rows of one junction table: (parent id, target id) pairs; the composite
primary key makes the pair the identity of a row. -/
abbrev JunctionRows := List (String × String)

/-- Postgres `INSERT ... ON CONFLICT DO NOTHING` on the composite primary
key: insert the pair unless already present. -/
def insertIgnore (rows : JunctionRows) (p : String × String) : JunctionRows :=
  if p ∈ rows then rows else rows ++ [p]

/-- Source `sync_junction_table_data`: delete all rows of the parent, then
insert the (source_id, tid) pairs for the non-empty tids, ignoring
conflicts.  (The source guards the insert behind `if target_ids:` and
`if values:`; with empty lists the fold below is a no-op, so the guards
need no separate modelling.) -/
def sync_junction_table_data (rows : JunctionRows) (source_id : String)
    (target_ids : List String) : JunctionRows :=
  let remaining := rows.filter (fun r => r.1 != source_id)
  ((target_ids.filter (fun t => t != "")).map (fun t => (source_id, t))).foldl
    insertIgnore remaining

/-- Python `doc.get(key)`: the value at the key, or None when missing. -/
def dGet (doc : Doc) (k : String) : Value := (doc.lookup k).getD .null

/-- The list of reference strings the source extracts from a junction field
value: missing/null becomes the empty array, a scalar is wrapped, each
element goes through `extract_objectid`, and falsy results (None or the
empty string) are dropped. -/
def extractTargets (av : Value) : List String :=
  let arrv : List Value :=
    match av with
    | .null => []
    | .arr xs => xs
    | v => [v]
  arrv.foldr (fun item acc =>
    match extract_objectid item with
    | some s => if s != "" then s :: acc else acc
    | none => acc) []

/-- Source `process_junction_fields_for_doc`, restricted to the junction
table of one declared field (each field owns a separate table, so the
per-field effects are independent).  `tables` maps each junction field of
the collection to its table's rows.  Mirrors the early returns: no
junction configuration for the collection, or falsy `str(doc.get("_id"))`. -/
def process_junction_fields_for_doc (collection_name : String) (doc : Doc)
    (tables : String → JunctionRows) : String → JunctionRows :=
  fun fld =>
    let jfs := (JUNCTION_TABLE_FIELDS.lookup collection_name).getD []
    if jfs.isEmpty then tables fld
    else
      let source_id := pyStr (dGet doc "_id")
      if source_id = "" then tables fld
      else if (jfs.lookup fld).isSome then
        sync_junction_table_data (tables fld) source_id (extractTargets (dGet doc fld))
      else tables fld

/-- Membership in a fold of conflict-ignoring inserts. -/
theorem mem_foldl_insertIgnore (ps : List (String × String)) (init : JunctionRows)
    (r : String × String) :
    r ∈ ps.foldl insertIgnore init ↔ r ∈ init ∨ r ∈ ps := by
  induction ps generalizing init with
  | nil => simp
  | cons p ps ih =>
      by_cases hp : p ∈ init
      · by_cases hrp : r = p
        · subst hrp
          simp [List.foldl_cons, insertIgnore, hp, ih, hp]
        · simp [List.foldl_cons, insertIgnore, hp, ih, hrp]
      · by_cases hrp : r = p
        · subst hrp
          simp [List.foldl_cons, insertIgnore, hp, ih]
        · simp [List.foldl_cons, insertIgnore, hp, ih, hrp]

/-- Membership after one junction sync: rows of other parents survive,
rows of this parent are exactly the non-empty target ids. -/
theorem mem_sync_junction (rows : JunctionRows) (pid : String)
    (tids : List String) (r : String × String) :
    r ∈ sync_junction_table_data rows pid tids ↔
      ((r ∈ rows ∧ r.1 ≠ pid) ∨ (r.1 = pid ∧ r.2 ∈ tids.filter (fun t => t != ""))) := by
  unfold sync_junction_table_data
  rw [mem_foldl_insertIgnore]
  constructor
  · rintro (hmem | hmem)
    · rw [List.mem_filter] at hmem
      exact Or.inl ⟨hmem.1, by simpa using hmem.2⟩
    · rw [List.mem_map] at hmem
      obtain ⟨t, ht, hr⟩ := hmem
      exact Or.inr ⟨by simp [← hr], by simp [← hr, ht]⟩
  · rintro (⟨hr, hne⟩ | ⟨hfst, hsnd⟩)
    · exact Or.inl (List.mem_filter.mpr ⟨hr, by simpa using hne⟩)
    · refine Or.inr (List.mem_map.mpr ⟨r.2, hsnd, ?_⟩)
      rw [← hfst]

/-- Every extracted junction target is a non-empty string (the source
drops falsy extraction results). -/
theorem extractTargets_ne_empty (av : Value) (t : String)
    (ht : t ∈ extractTargets av) : t != "" := by
  unfold extractTargets at ht
  revert ht
  generalize (match av with
    | .null => ([] : List Value) | .arr xs => xs | v => [v]) = elems
  induction elems with
  | nil => intro ht; simp at ht
  | cons e es ih =>
      intro ht
      rcases he : extract_objectid e with _ | s
      · simp only [List.foldr_cons, he] at ht
        exact ih ht
      · simp only [List.foldr_cons, he] at ht
        by_cases hs : (s != "") = true
        · rw [if_pos hs] at ht
          rcases List.mem_cons.mp ht with h1 | h1
          · subst h1; exact hs
          · exact ih h1
        · rw [if_neg hs] at ht
          exact ih ht

/-- Concrete document for the C4 counterexample: `_id` present but equal to
the empty string, one declared junction field with an extractable
reference. -/
def c4Doc : Doc := [("_id", .str ""), ("branch", .arr [.str "aaaaaaaaaaaaaaaaaaaaaaaa"])]

/-- Prior junction-table contents for the C4 counterexample: a stale row
for the empty parent id. -/
def c4Prior : String → JunctionRows := fun _ => [("", "zzz")]

/-- C4 counterexample: for the document with `_id = ""` (which has an
`_id`, and whose junction field holds one extractable reference) the claim
demands that after processing, the junction rows with parent `str(_id)`
are exactly the extracted set regardless of prior rows; but the code
returns early on the falsy stringified id and leaves the stale prior row
in place. -/
theorem c4_counterexample :
    (c4Doc.lookup "_id").isSome ∧
    ¬ (∀ r : String × String,
        (r ∈ process_junction_fields_for_doc "users" c4Doc c4Prior "branch" ∧
            r.1 = pyStr (dGet c4Doc "_id")) ↔
          (r.1 = pyStr (dGet c4Doc "_id") ∧
            r.2 ∈ extractTargets (dGet c4Doc "branch"))) := by
  refine ⟨by decide, fun h => ?_⟩
  have hmem := (h ("", "aaaaaaaaaaaaaaaaaaaaaaaa")).mpr (by decide)
  exact absurd hmem.1 (by decide)

/-- C4 amended: junction determinism holds for every document whose
stringified `_id` is non-empty (Python-truthy): after processing, a row
belongs to the field's junction table iff it is (str(_id), t) for an
extracted target t, or it is a prior row of a different parent.  In
particular the rows of parent str(_id) are exactly the extracted,
deduplicated reference set, regardless of prior state. -/
theorem c4_junction_determinism_amended (collection_name fld tgt : String)
    (doc : Doc) (tables : String → JunctionRows)
    (hdecl : ((JUNCTION_TABLE_FIELDS.lookup collection_name).getD []).lookup fld = some tgt)
    (hid : pyStr (dGet doc "_id") ≠ "") :
    ∀ r : String × String,
      r ∈ process_junction_fields_for_doc collection_name doc tables fld ↔
        ((r.1 = pyStr (dGet doc "_id") ∧ r.2 ∈ extractTargets (dGet doc fld)) ∨
          (r ∈ tables fld ∧ r.1 ≠ pyStr (dGet doc "_id"))) := by
  intro r
  have hjfs : ((JUNCTION_TABLE_FIELDS.lookup collection_name).getD []).isEmpty = false := by
    cases hh : (JUNCTION_TABLE_FIELDS.lookup collection_name).getD [] with
    | nil => rw [hh] at hdecl; simp [List.lookup] at hdecl
    | cons a l => simp
  have hsome : (((JUNCTION_TABLE_FIELDS.lookup collection_name).getD []).lookup fld).isSome := by
    rw [hdecl]; rfl
  simp only [process_junction_fields_for_doc, hjfs, Bool.false_eq_true, if_false,
    if_neg hid, if_pos hsome]
  rw [mem_sync_junction]
  have hfilter : (extractTargets (dGet doc fld)).filter (fun t => t != "") =
      extractTargets (dGet doc fld) :=
    List.filter_eq_self.mpr (fun t ht => extractTargets_ne_empty (dGet doc fld) t ht)
  rw [hfilter]
  tauto

/-- Concrete inputs for the C4 amended witness. -/
def c4WDoc : Doc :=
  [("_id", .str "u1"),
   ("branch", .arr [.objectId "aaaaaaaaaaaaaaaaaaaaaaaa", .objectId "bbbbbbbbbbbbbbbbbbbbbbbb"])]

/-- Prior junction rows for the C4 amended witness: one stale row of the
same parent and one row of a different parent. -/
def c4WTables : String → JunctionRows := fun _ => [("u1", "zzz"), ("u2", "keep")]

/-- Witness for the amended C4 theorem: concrete document, field and prior
state, instantiated at one row. -/
theorem c4_junction_determinism_amended_witness :
    ("u1", "aaaaaaaaaaaaaaaaaaaaaaaa") ∈
        process_junction_fields_for_doc "users" c4WDoc c4WTables "branch" ↔
      ((("u1", "aaaaaaaaaaaaaaaaaaaaaaaa").1 = pyStr (dGet c4WDoc "_id") ∧
          ("u1", "aaaaaaaaaaaaaaaaaaaaaaaa").2 ∈ extractTargets (dGet c4WDoc "branch")) ∨
        (("u1", "aaaaaaaaaaaaaaaaaaaaaaaa") ∈ c4WTables "branch" ∧
          ("u1", "aaaaaaaaaaaaaaaaaaaaaaaa").1 ≠ pyStr (dGet c4WDoc "_id"))) :=
  c4_junction_determinism_amended "users" "branch" "branches" c4WDoc c4WTables
    (by decide) (by decide) ("u1", "aaaaaaaaaaaaaaaaaaaaaaaa")

/-- Source constant MAX_IDENT_LEN. -/
def MAX_IDENT_LEN : Nat := 63

/-- Left rotation of a 32-bit word, on Nat mod 2^32. -/
def rotl (n w : Nat) : Nat := ((w <<< n) ||| (w >>> (32 - n))) % 4294967296

/-- SHA-1 padding: append 0x80, zeros to 56 mod 64, then the 64-bit
big-endian bit length. -/
def sha1pad (msg : List Nat) : List Nat :=
  let len := msg.length
  let k := (120 - ((len + 1) % 64)) % 64
  msg ++ 128 :: List.replicate k 0 ++
    (List.range 8).map (fun i => len * 8 / 2 ^ (8 * (7 - i)) % 256)

/-- Big-endian word from bytes. -/
def beWord (b : List Nat) : Nat := b.foldl (fun acc x => acc * 256 + x % 256) 0

/-- Split a byte list into 64-byte chunks. -/
def chunks64 (l : List Nat) : List (List Nat) :=
  if h : l.isEmpty then []
  else l.take 64 :: chunks64 (l.drop 64)
termination_by l.length
decreasing_by
  have hne : l.length ≠ 0 := by
    cases l
    · simp at h
    · simp
  simp [List.length_drop]
  omega

/-- SHA-1 message schedule for one chunk. -/
def sha1W (chunk : List Nat) (i : Nat) : Nat :=
  if h : i < 16 then beWord ((chunk.drop (4 * i)).take 4)
  else rotl 1 ((sha1W chunk (i - 3)) ^^^ (sha1W chunk (i - 8)) ^^^
      (sha1W chunk (i - 14)) ^^^ (sha1W chunk (i - 16)))
termination_by i
decreasing_by all_goals omega

/-- SHA-1 round function. -/
def sha1f (t b c d : Nat) : Nat :=
  if t < 20 then (b &&& c) ||| ((b ^^^ 4294967295) &&& d)
  else if t < 40 then b ^^^ c ^^^ d
  else if t < 60 then (b &&& c) ||| (b &&& d) ||| (c &&& d)
  else b ^^^ c ^^^ d

/-- SHA-1 round constants. -/
def sha1k (t : Nat) : Nat :=
  if t < 20 then 1518500249
  else if t < 40 then 1859775393
  else if t < 60 then 2400959708
  else 3395469782

/-- One SHA-1 round on the five-word state. -/
def sha1round (chunk : List Nat) (st : Nat × Nat × Nat × Nat × Nat) (t : Nat) :
    Nat × Nat × Nat × Nat × Nat :=
  let (a, b, c, d, e) := st
  ((rotl 5 a + sha1f t b c d + e + sha1k t + sha1W chunk t) % 4294967296,
    a, rotl 30 b, c, d)

/-- SHA-1 compression of one 64-byte chunk. -/
def sha1chunk (h : Nat × Nat × Nat × Nat × Nat) (chunk : List Nat) :
    Nat × Nat × Nat × Nat × Nat :=
  let (h0, h1, h2, h3, h4) := h
  let (a, b, c, d, e) := (List.range 80).foldl (sha1round chunk) (h0, h1, h2, h3, h4)
  ((h0 + a) % 4294967296, (h1 + b) % 4294967296, (h2 + c) % 4294967296,
    (h3 + d) % 4294967296, (h4 + e) % 4294967296)

/-- SHA-1 digest (five 32-bit words) of a byte string. -/
def sha1digest (msg : List Nat) : Nat × Nat × Nat × Nat × Nat :=
  (chunks64 (sha1pad msg)).foldl sha1chunk
    (1732584193, 4023233417, 2562383102, 271733878, 3285377520)

/-- Eight lowercase hex characters of a 32-bit word, most significant
first. -/
def toHex8 (w : Nat) : List Char :=
  [hexDigit (w / 16 ^ 7 % 16), hexDigit (w / 16 ^ 6 % 16), hexDigit (w / 16 ^ 5 % 16),
   hexDigit (w / 16 ^ 4 % 16), hexDigit (w / 16 ^ 3 % 16), hexDigit (w / 16 ^ 2 % 16),
   hexDigit (w / 16 % 16), hexDigit (w % 16)]

/-- The 40 hex characters of `hashlib.sha1(...).hexdigest()`. -/
def sha1hexChars (msg : List Nat) : List Char :=
  let (h0, h1, h2, h3, h4) := sha1digest msg
  toHex8 h0 ++ toHex8 h1 ++ toHex8 h2 ++ toHex8 h3 ++ toHex8 h4

/-- UTF-8 bytes of a string (`text.encode("utf-8")`). -/
def strUtf8 (s : String) : List Nat := s.toUTF8.toList.map (fun b => b.toNat)

/-- Source `short_hash`: first 8 hex characters of the SHA-1 of the UTF-8
encoded text. -/
def short_hash (text : String) : String :=
  String.mk ((sha1hexChars (strUtf8 text)).take 8)

/-- The hexdigest always has 40 characters. -/
theorem sha1hexChars_length (msg : List Nat) : (sha1hexChars msg).length = 40 := by
  unfold sha1hexChars
  obtain ⟨h0, h1, h2, h3, h4⟩ := sha1digest msg
  simp [toHex8]

/-- Characters the sanitizer keeps unchanged: `[A-Za-z0-9_]`. -/
def isWordChar (c : Char) : Bool :=
  ('a' ≤ c && c ≤ 'z') || ('A' ≤ c && c ≤ 'Z') || ('0' ≤ c && c ≤ '9') || c == '_'

/-- Python `re.sub(r"[^a-zA-Z0-9_]", "_", name)` on the character list. -/
def replaceNonWord (l : List Char) : List Char :=
  l.map (fun c => if isWordChar c then c else '_')

/-- Python `re.sub(r"_+", "_", s)`: collapse runs of underscores; the Bool
tracks whether the previous character was an underscore. -/
def collapseB : Bool → List Char → List Char
  | _, [] => []
  | prevU, c :: rest =>
      if c == '_' && prevU then collapseB true rest
      else c :: collapseB (c == '_') rest

/-- Python `s.strip("_")`: drop leading and trailing underscores. -/
def stripUnderscores (l : List Char) : List Char :=
  ((l.dropWhile (fun c => c == '_')).reverse.dropWhile (fun c => c == '_')).reverse

/-- Shared tail of the sanitizer: substitute the fallback on empty, and on
overflow clip and append the 8-character hash of the original name. -/
def sanitizeFinish (name pfx : String) (base0 : List Char) : String :=
  let base := if base0.isEmpty then pfx.toList else base0
  if base.length > MAX_IDENT_LEN then
    let h := (sha1hexChars (strUtf8 name)).take 8
    String.mk (base.take (MAX_IDENT_LEN - h.length - 1) ++ '_' :: h)
  else String.mk base

/-- Source `sanitize_identifier`: replace non-word characters, lowercase,
collapse underscore runs, strip, substitute the fallback on empty, hash-clip
on overflow. -/
def sanitize_identifier (name pfx : String) : String :=
  sanitizeFinish name pfx
    (stripUnderscores (collapseB false ((replaceNonWord name.toList).map Char.toLower)))

/-- Spec-side variant (from the spec words for C8): replace, collapse,
strip, THEN lowercase; same fallback and overflow clauses. -/
def sanitizeSpecOrder (name pfx : String) : String :=
  sanitizeFinish name pfx
    ((stripUnderscores (collapseB false (replaceNonWord name.toList))).map Char.toLower)

/-- A Nat below the surrogate range is a valid scalar value. -/
theorem toNat_ofNat_valid (n : Nat) (h : n.isValidChar) : (Char.ofNat n).toNat = n := by
  unfold Char.ofNat
  rw [dif_pos h]
  rfl

/-- Lowercasing maps a character to the underscore iff it is the
underscore. -/
theorem toLower_underscore_iff (c : Char) : (Char.toLower c = '_') ↔ (c = '_') := by
  unfold Char.toLower
  by_cases h : c.toNat ≥ 65 ∧ c.toNat ≤ 90
  · rw [if_pos h]
    constructor
    · intro he
      exfalso
      have hv : (c.toNat + 32).isValidChar := Or.inl (by omega)
      have h95 : (Char.ofNat (c.toNat + 32)).toNat = c.toNat + 32 := toNat_ofNat_valid _ hv
      rw [he] at h95
      have h27 : ('_').toNat = 95 := by decide
      omega
    · intro he
      subst he
      exfalso
      have h27 : ('_').toNat = 95 := by decide
      omega
  · rw [if_neg h]

/-- Boolean form of the underscore-lowercase commutation. -/
theorem lower_underscore_beq (c : Char) : (Char.toLower c == '_') = (c == '_') := by
  by_cases h : c = '_'
  · subst h; rfl
  · have h2 : ¬ Char.toLower c = '_' := fun he => h ((toLower_underscore_iff c).mp he)
    simp [h, h2]

/-- Collapsing underscore runs commutes with lowercasing. -/
theorem collapse_lower (b : Bool) (l : List Char) :
    collapseB b (l.map Char.toLower) = (collapseB b l).map Char.toLower := by
  induction l generalizing b with
  | nil => rfl
  | cons c cs ih =>
      simp only [List.map_cons, collapseB, lower_underscore_beq]
      by_cases hc : (c == '_') = true <;> by_cases hb : b = true <;>
        simp [hc, hb, ih, lower_underscore_beq]

/-- Dropping leading underscores commutes with lowercasing. -/
theorem dropWhile_lower (l : List Char) :
    (l.map Char.toLower).dropWhile (fun c => c == '_') =
      (l.dropWhile (fun c => c == '_')).map Char.toLower := by
  induction l with
  | nil => rfl
  | cons c cs ih =>
      simp only [List.map_cons, List.dropWhile_cons, lower_underscore_beq]
      by_cases hc : (c == '_') = true <;> simp [hc, ih]

/-- Stripping underscores commutes with lowercasing. -/
theorem strip_lower (l : List Char) :
    stripUnderscores (l.map Char.toLower) = (stripUnderscores l).map Char.toLower := by
  unfold stripUnderscores
  rw [dropWhile_lower, ← List.map_reverse, dropWhile_lower, List.map_reverse]

/-- C8: the sanitizer equals the spec's normalization order (replace each
character outside [A-Za-z0-9_] with _, collapse runs, strip ends,
lowercase, substitute the prefix argument when empty; on overflow return
the clipped base plus "_" plus the first 8 hex characters of the SHA-1 of
the original name) — and its output never exceeds 63 characters. -/
theorem c8_sanitize_identifier_spec (name pfx : String) :
    sanitize_identifier name pfx = sanitizeSpecOrder name pfx ∧
    (sanitize_identifier name pfx).length ≤ 63 := by
  constructor
  · unfold sanitize_identifier sanitizeSpecOrder
    rw [collapse_lower, strip_lower]
  · unfold sanitize_identifier sanitizeFinish
    set base := if (stripUnderscores (collapseB false
        ((replaceNonWord name.toList).map Char.toLower))).isEmpty then pfx.toList
      else stripUnderscores (collapseB false ((replaceNonWord name.toList).map Char.toLower))
    by_cases hlen : base.length > MAX_IDENT_LEN
    · rw [if_pos hlen]
      have hh : ((sha1hexChars (strUtf8 name)).take 8).length = 8 := by
        rw [List.length_take, sha1hexChars_length]
        decide
      have hlen2 : (String.mk (base.take (MAX_IDENT_LEN -
          ((sha1hexChars (strUtf8 name)).take 8).length - 1) ++
          '_' :: (sha1hexChars (strUtf8 name)).take 8)).length =
          (base.take (MAX_IDENT_LEN - ((sha1hexChars (strUtf8 name)).take 8).length - 1)).length
            + 1 + 8 := by
        simp [String.length, hh]
      rw [hlen2]
      have ht : (base.take (MAX_IDENT_LEN -
          ((sha1hexChars (strUtf8 name)).take 8).length - 1)).length ≤ 54 := by
        rw [List.length_take, hh]
        unfold MAX_IDENT_LEN
        omega
      omega
    · rw [if_neg hlen]
      have : (String.mk base).length = base.length := rfl
      rw [this]
      unfold MAX_IDENT_LEN at hlen
      omega

/-- Truncation toward zero of a rational (Python `int(float)`). -/
def ratTrunc (q : ℚ) : Int := if q < 0 then -((-q).floor) else q.floor

/-- Parse a non-empty all-digit character list. -/
def parseDigits (l : List Char) : Option Nat :=
  if l.isEmpty then none
  else if l.all Char.isDigit then
    some (l.foldl (fun a c => a * 10 + (c.toNat - 48)) 0)
  else none

/-- Python `int(str)`: optional sign then digits (whitespace and underscore
tolerance not modelled; no claim depends on those). -/
def parseIntStr (s : String) : Option Int :=
  match s.toList with
  | '-' :: rest => (parseDigits rest).map (fun n => -(n : Int))
  | '+' :: rest => (parseDigits rest).map (fun n => (n : Int))
  | l => (parseDigits l).map (fun n => (n : Int))

/-- Parse a decimal literal (sign, digits, optional fraction, optional
exponent) into a rational. -/
def decStrToRat (s : String) : Option ℚ :=
  let l := s.toList
  let sgn : ℚ := match l with
    | '-' :: _ => -1
    | _ => 1
  let l1 := match l with
    | '-' :: rest => rest
    | '+' :: rest => rest
    | _ => l
  let mant := l1.takeWhile (fun c => c ≠ 'E' ∧ c ≠ 'e')
  let expPart := l1.drop mant.length
  let expVal : Option Int := match expPart with
    | [] => some 0
    | _ :: rest => parseIntStr (String.mk rest)
  let ip := mant.takeWhile (fun c => c ≠ '.')
  let fp := match mant.drop ip.length with
    | [] => []
    | _ :: t => t
  if (ip ++ fp).isEmpty then none
  else if (ip ++ fp).all Char.isDigit then
    match expVal with
    | none => none
    | some e =>
        let m : ℚ := (((ip ++ fp).foldl (fun a c => a * 10 + (c.toNat - 48)) 0 : Nat) : ℚ)
        some (sgn * m * (10 : ℚ) ^ (e - fp.length))
  else none

/-- Python `int(value)` on the embedded domain (None and unsupported types
give `none`, i.e. TypeError/ValueError). -/
def pyInt : Value → Option Int
  | .int n => some n
  | .bool b => some (if b then 1 else 0)
  | .float f q => if f then some (ratTrunc q) else none
  | .str s => parseIntStr s
  | .decimal f s => if f then (decStrToRat s).map ratTrunc else none
  | _ => none

/-- Python `float(value)` on the embedded domain: finiteness flag plus
rational payload. -/
def pyFloat : Value → Option (Bool × ℚ)
  | .float f q => some (f, q)
  | .int n => some (true, (n : ℚ))
  | .bool b => some (true, if b then 1 else 0)
  | .str s => (decStrToRat s).map (fun q => (true, q))
  | .decimal f s => if f then (decStrToRat s).map (fun q => (true, q)) else some (false, 0)
  | _ => none

/-- Python `Decimal(s)` followed by `str(...)`: succeeds when `s` parses as
a decimal literal, keeping `s` as the canonical form (a model; the source
only ever round-trips strings produced by `str`). -/
def decimalFromStr (s : String) : Except Unit String :=
  if (decStrToRat s).isSome then .ok s else .error ()

/-- Semantic value of one target-table cell after the sink has stored it:
the driver's binary adaptation and the COPY text framing both land on this
domain (the spec fixes the sink's SQL-level contract, so the textual
encode-then-parse round trip of the copy path is collapsed to the parsed
cell). -/
inductive SinkCell where
  | text (s : String)
  | int (n : Int)
  | float (finite : Bool) (q : ℚ)
  | numeric (s : String)
  | bool (b : Bool)
  | timestamp (iso : String)
  | bytes (bs : List Nat)
  | jsonb (j : Value)

/-- Source `adapt_value`: adapt one value for the parameterized path; any
raise (TypeConflict or an uncaught conversion error) is `.error`. -/
def adapt_value (value : Value) (pg_type : PgType) : Except Unit (Option SinkCell) :=
  match value with
  | .null => .ok none
  | v =>
    match pg_type with
    | .jsonb => .ok (some (.jsonb (to_json_compatible v)))
    | .text => .ok (some (.text (pyStr v)))
    | .bigint =>
        match v with
        | .bool _ => .error ()
        | _ =>
          match pyInt v with
          | some n => .ok (some (.int n))
          | none => .error ()
    | .doublePrecision =>
        match v with
        | .bool _ => .error ()
        | _ =>
          match pyFloat v with
          | some fq => .ok (some (.float fq.1 fq.2))
          | none => .error ()
    | .numeric =>
        match v with
        | .decimal128 _ s => .ok (some (.numeric s))
        | .decimal _ s => .ok (some (.numeric s))
        | .bool _ => .error ()
        | _ =>
          match decimalFromStr (pyStr v) with
          | .ok s => .ok (some (.numeric s))
          | .error _ => .error ()
    | .boolean =>
        match v with
        | .bool b => .ok (some (.bool b))
        | _ => .error ()
    | .timestamptz =>
        match v with
        | .timestamp iso => .ok (some (.timestamp iso))
        | _ => .error ()
    | .bytea =>
        match v with
        | .bytes bs => .ok (some (.bytes bs))
        | _ => .error ()

/-- Source `adapt_value_with_context`: for a text column on an fk-extract
field, try reference extraction first; fall back to `adapt_value`. -/
def adapt_value_with_context (value : Value) (pg_type : PgType)
    (collection_name field_name : String) : Except Unit (Option SinkCell) :=
  match value with
  | .null => .ok none
  | v =>
      if pg_type = .text ∧ should_extract_as_fk collection_name field_name then
        match extract_objectid v with
        | some ex => .ok (some (.text ex))
        | none => adapt_value v pg_type
      else adapt_value v pg_type

/-- Source `encode_copy_value`, composed with the sink's COPY text parse
(fixed by the spec's SQL-level contract): branch-for-branch mirror of the
source, landing on the same semantic cell domain; `None` encodes to the
NULL marker. -/
def encode_copy_value (value : Value) (pg_type : PgType) : Except Unit (Option SinkCell) :=
  match value with
  | .null => .ok none
  | v =>
    match pg_type with
    | .jsonb => .ok (some (.jsonb (to_json_compatible v)))
    | .text => .ok (some (.text (pyStr v)))
    | .bigint =>
        match v with
        | .bool _ => .error ()
        | _ =>
          match pyInt v with
          | some n => .ok (some (.int n))
          | none => .error ()
    | .doublePrecision =>
        match v with
        | .bool _ => .error ()
        | _ =>
          match pyFloat v with
          | some fq => .ok (some (.float fq.1 fq.2))
          | none => .error ()
    | .numeric =>
        match v with
        | .decimal128 _ s => .ok (some (.numeric s))
        | .decimal _ s => .ok (some (.numeric s))
        | .bool _ => .error ()
        | _ =>
          match decimalFromStr (pyStr v) with
          | .ok s => .ok (some (.numeric s))
          | .error _ => .error ()
    | .boolean =>
        match v with
        | .bool b => .ok (some (.bool b))
        | _ => .error ()
    | .timestamptz =>
        match v with
        | .timestamp iso => .ok (some (.timestamp iso))
        | _ => .error ()
    | .bytea =>
        match v with
        | .bytes bs => .ok (some (.bytes bs))
        | _ => .error ()

/-- In-memory collection state as far as the writers consult it: the
collection name (for fk context) and the column order (mongo key and
column type, sorted by column name by `refresh_state`). -/
structure CollectionStateM where
  collection_name : String
  column_order : List (String × PgType)

/-- A target-table row: the cells for the non-id columns in column order. -/
abbrev Row := List (Option SinkCell)

/-- The target table: `_id`-keyed rows in insertion order. -/
abbrev Table := List (String × Row)

/-- Source `doc_to_row`: stringified `_id` first, then each column's value
adapted with fk context; a document without `_id` raises. -/
def doc_to_row (st : CollectionStateM) (doc : Doc) : Except Unit (String × Row) :=
  if (doc.lookup "_id").isSome then
    (st.column_order.mapM (fun ct =>
      adapt_value_with_context (dGet doc ct.1) ct.2 st.collection_name ct.1)).map
      (fun cells => (pyStr (dGet doc "_id"), cells))
  else .error ()

/-- One line of `build_copy_buffer`: stringified `_id` first, then each
column's value encoded WITHOUT fk context; a document without `_id`
raises. -/
def buildCopyRow (st : CollectionStateM) (doc : Doc) : Except Unit (String × Row) :=
  if (doc.lookup "_id").isSome then
    (st.column_order.mapM (fun ct => encode_copy_value (dGet doc ct.1) ct.2)).map
      (fun cells => (pyStr (dGet doc "_id"), cells))
  else .error ()

/-- Source `build_copy_buffer` over a batch. -/
def build_copy_buffer (st : CollectionStateM) (docs : List Doc) :
    Except Unit (List (String × Row)) :=
  docs.mapM (buildCopyRow st)

/-- Upsert one row under `ON CONFLICT (_id) DO UPDATE SET every non-id
column = EXCLUDED...` — the conflicting row is replaced in place. -/
def upsertRow (t : Table) (r : String × Row) : Table :=
  if (t.lookup r.1).isSome then t.map (fun e => if e.1 = r.1 then r else e)
  else t ++ [r]

/-- Upsert one row under `ON CONFLICT (_id) DO NOTHING` (used when `_id` is
the only column). -/
def upsertRowNothing (t : Table) (r : String × Row) : Table :=
  if (t.lookup r.1).isSome then t else t ++ [r]

/-- The sink's upsert contract for a batch of rows, in arrival order
(last-writer-wins within the batch per the spec's ON CONFLICT contract):
`DO UPDATE` when there are columns besides `_id`, else `DO NOTHING` —
matching `build_upsert_from_staging` and `build_upsert_sql`. -/
def applyUpsert (st : CollectionStateM) (t : Table) (rows : List (String × Row)) : Table :=
  if st.column_order.isEmpty then rows.foldl upsertRowNothing t
  else rows.foldl upsertRow t

/-- The sink connection: rows committed so far, and the pending view of the
open transaction (psycopg2 autocommit off — writes land in `pending` and
reach `committed` only at `conn.commit()`; `conn.rollback()` restores
`pending` from `committed`). -/
structure PgConn where
  committed : Table
  pending : Table

/-- Source `SyncSettings`. -/
structure SyncSettings where
  copy_enabled : Bool
  copy_min_rows : Nat

/-- Source `copy_upsert_batch` with failure injection: `failAt = some 0`
models the staging DDL raising, `some 1` a COPY protocol error, `some 2` the
staging-to-target upsert raising (e.g. a DDL race); encoding failures
(TypeConflict, missing `_id`) arise deterministically from
`build_copy_buffer`.  On success the staged rows are upserted and
committed. -/
def copy_upsert_batch (conn : PgConn) (st : CollectionStateM) (docs : List Doc)
    (failAt : Option Nat) : Except Unit PgConn :=
  if docs.isEmpty then .ok conn
  else if failAt = some 0 then .error ()
  else
    match build_copy_buffer st docs with
    | .error _ => .error ()
    | .ok stagingRows =>
        if failAt = some 1 then .error ()
        else if failAt = some 2 then .error ()
        else
          let p := applyUpsert st conn.pending stagingRows
          .ok { committed := p, pending := p }

/-- The parameterized path of `upsert_batch`: adapt every document of the
batch, run the multi-row upsert, commit. -/
def paramUpsertBatch (conn : PgConn) (st : CollectionStateM) (docs : List Doc) :
    Except Unit PgConn :=
  match docs.mapM (doc_to_row st) with
  | .error _ => .error ()
  | .ok rows =>
      let p := applyUpsert st conn.pending rows
      .ok { committed := p, pending := p }

/-- Source `upsert_batch`: route to the copy path when enabled and the
batch is large enough; on any copy-path failure roll back and retry the
whole batch through the parameterized path.  (The junction projection the
source runs after the target-table write is independent of the target
table and is modelled separately.) -/
def upsert_batch (conn : PgConn) (st : CollectionStateM) (docs : List Doc)
    (settings : SyncSettings) (failAt : Option Nat) : Except Unit PgConn :=
  if docs.isEmpty then .ok conn
  else if settings.copy_enabled && decide (settings.copy_min_rows ≤ docs.length) then
    match copy_upsert_batch conn st docs failAt with
    | .ok c => .ok c
    | .error _ =>
        paramUpsertBatch { committed := conn.committed, pending := conn.committed } st docs
  else paramUpsertBatch conn st docs

/-- C5: copy-path fallback — for every non-empty batch routed to the copy
path, if the copy path raises (TypeConflict during encoding, protocol
error, staging/upsert failure at any injected point), `upsert_batch`
produces exactly the result of running the parameterized path on the
entire batch against the rolled-back connection, whose pending view is
restored from the committed table — so no write of the failed copy attempt
is visible. -/
theorem c5_copy_fallback (conn : PgConn) (st : CollectionStateM) (docs : List Doc)
    (settings : SyncSettings) (failAt : Option Nat)
    (hne : docs ≠ [])
    (hcopy : settings.copy_enabled = true)
    (hmin : settings.copy_min_rows ≤ docs.length)
    (hfail : copy_upsert_batch conn st docs failAt = .error ()) :
    upsert_batch conn st docs settings failAt =
      paramUpsertBatch { committed := conn.committed, pending := conn.committed } st docs := by
  have hne2 : docs.isEmpty = false := by
    cases docs
    · exact absurd rfl hne
    · rfl
  unfold upsert_batch
  rw [hne2]
  simp [hcopy, hmin, hfail]

/-- Witness for C5: a one-document batch with `copy_min_rows = 1` and
staging DDL failure injected falls back to the parameterized path on the
rolled-back (empty) connection. -/
theorem c5_copy_fallback_witness :
    upsert_batch ⟨[], []⟩ ⟨"users", []⟩ [[("_id", .str "1")]] ⟨true, 1⟩ (some 0) =
      paramUpsertBatch ⟨[], []⟩ ⟨"users", []⟩ [[("_id", .str "1")]] :=
  c5_copy_fallback ⟨[], []⟩ ⟨"users", []⟩ [[("_id", .str "1")]] ⟨true, 1⟩ (some 0)
    (by simp) rfl (by decide) rfl

/-- The two value encodings agree branch for branch on the semantic cell
domain (the copy framing differences are absorbed by the sink's fixed COPY
text contract). -/
theorem encode_eq_adapt (v : Value) (t : PgType) :
    encode_copy_value v t = adapt_value v t := by
  cases v <;> cases t <;> rfl

/-- Congruence for `mapM` over `Except`. -/
theorem mapM_congr_except {α β : Type} (l : List α) (f g : α → Except Unit β)
    (h : ∀ a ∈ l, f a = g a) : l.mapM f = l.mapM g := by
  induction l with
  | nil => rfl
  | cons x xs ih =>
      rw [List.mapM_cons, List.mapM_cons, h x (List.mem_cons_self x xs),
        ih (fun a ha => h a (List.mem_cons_of_mem x ha))]

/-- Context-aware adaptation agrees with plain adaptation whenever, on an
fk-extract text column, extraction either fails or returns exactly the
plain string form of the value. -/
theorem adapt_context_eq_adapt (v : Value) (t : PgType) (c f : String)
    (h : t = PgType.text → should_extract_as_fk c f = true →
      extract_objectid v = none ∨ extract_objectid v = some (pyStr v)) :
    adapt_value_with_context v t c f = adapt_value v t := by
  cases v
  all_goals try rfl
  all_goals (
    by_cases hc : t = PgType.text ∧ should_extract_as_fk c f = true
    · obtain ⟨ht, hfk⟩ := hc
      subst ht
      rcases h rfl hfk with hex | hex
      · simp [adapt_value_with_context, hfk, hex]
      · simp [adapt_value_with_context, hfk, hex, adapt_value]
    · simp [adapt_value_with_context, hc])

/-- C10 amended: path equivalence holds for every batch and collection
state in which no fk-extract text column holds a value whose extracted
reference differs from its plain string form (e.g. no dict-form
references): starting from a clean connection, the copy path (staging rows
encoded without fk context, upserted from staging) and the parameterized
path (rows adapted with fk context) produce identical results — including
identical raise behavior, identical column order, null positions, and
last-writer-wins resolution of duplicate ids. -/
theorem c10_path_equivalence_amended (t0 : Table) (st : CollectionStateM) (docs : List Doc)
    (hfk : ∀ doc ∈ docs, ∀ ct ∈ st.column_order, ct.2 = PgType.text →
        should_extract_as_fk st.collection_name ct.1 = true →
        extract_objectid (dGet doc ct.1) = none ∨
          extract_objectid (dGet doc ct.1) = some (pyStr (dGet doc ct.1))) :
    copy_upsert_batch ⟨t0, t0⟩ st docs none = paramUpsertBatch ⟨t0, t0⟩ st docs := by
  have hrows : build_copy_buffer st docs = docs.mapM (doc_to_row st) := by
    unfold build_copy_buffer
    apply mapM_congr_except
    intro doc hdoc
    unfold buildCopyRow doc_to_row
    by_cases hid : (doc.lookup "_id").isSome
    · rw [if_pos hid, if_pos hid]
      congr 1
      apply mapM_congr_except
      intro ct hct
      rw [encode_eq_adapt]
      exact (adapt_context_eq_adapt _ _ _ _ (fun ht hf => hfk doc hdoc ct hct ht hf)).symm
    · rw [if_neg hid, if_neg hid]
  cases docs with
  | nil =>
      unfold copy_upsert_batch paramUpsertBatch applyUpsert
      by_cases hc : st.column_order.isEmpty <;> simp [hc, List.mapM.loop] <;> rfl
  | cons d ds =>
      unfold copy_upsert_batch paramUpsertBatch
      rw [hrows]
      simp only [List.isEmpty_cons, Bool.false_eq_true, if_false]
      cases hm : (d :: ds).mapM (doc_to_row st) with
      | error e => simp
      | ok rows => simp

/-- Collection state for the C10 counterexample: one fk-extract text
column, `users.department`. -/
def c10St : CollectionStateM := ⟨"users", [("department", PgType.text)]⟩

/-- Document for the C10 counterexample: a dict-form reference in the
fk-extract text column. -/
def c10Doc : Doc := [("_id", .str "1"), ("department", .obj [("$oid", .str "abc")])]

/-- The plain string form of the dict-form reference differs from the
extracted reference. -/
theorem c10_pystr_ne : pyStr (Value.obj [("$oid", Value.str "abc")]) ≠ "abc" := by
  intro he
  simp only [pyStr] at he
  rw [pyRepr] at he
  simp [apos] at he
  revert he
  decide

/-- C10 counterexample: on the batch `[c10Doc]` with state `c10St` neither
encoding raises, yet the copy path and the parameterized path commit
different rows — the copy path stores `str(value)` of the dict while the
parameterized path stores the extracted reference "abc". -/
theorem c10_counterexample :
    (∃ r, build_copy_buffer c10St [c10Doc] = .ok r) ∧
    (∃ r, [c10Doc].mapM (doc_to_row c10St) = .ok r) ∧
    copy_upsert_batch ⟨[], []⟩ c10St [c10Doc] none ≠
      paramUpsertBatch ⟨[], []⟩ c10St [c10Doc] := by
  refine ⟨⟨_, rfl⟩, ⟨_, rfl⟩, ?_⟩
  intro heq
  have h1 : copy_upsert_batch ⟨[], []⟩ c10St [c10Doc] none =
      .ok ⟨[("1", [some (.text (pyStr (Value.obj [("$oid", Value.str "abc")])))])],
           [("1", [some (.text (pyStr (Value.obj [("$oid", Value.str "abc")])))])]⟩ := rfl
  have h2 : paramUpsertBatch ⟨[], []⟩ c10St [c10Doc] =
      .ok ⟨[("1", [some (.text "abc")])], [("1", [some (.text "abc")])]⟩ := rfl
  rw [h1, h2] at heq
  simp only [Except.ok.injEq, PgConn.mk.injEq, List.cons.injEq, Prod.mk.injEq,
    Option.some.injEq, SinkCell.text.injEq, and_true, true_and] at heq
  exact c10_pystr_ne heq.1

/-- Witness for the amended C10 theorem: a batch with a bigint column (no
fk-extract text column at all), where both paths agree. -/
theorem c10_path_equivalence_amended_witness :
    copy_upsert_batch ⟨[], []⟩ ⟨"users", [("age", PgType.bigint)]⟩
        [[("_id", Value.str "1"), ("age", Value.int 30)]] none =
      paramUpsertBatch ⟨[], []⟩ ⟨"users", [("age", PgType.bigint)]⟩
        [[("_id", Value.str "1"), ("age", Value.int 30)]] :=
  c10_path_equivalence_amended [] ⟨"users", [("age", PgType.bigint)]⟩
    [[("_id", Value.str "1"), ("age", Value.int 30)]]
    (by
      intro doc hdoc ct hct ht hf
      rw [List.mem_singleton] at hct
      subst hct
      exact absurd ht (by decide))

/-- An opaque resume token (the worker stores the BSON-serialized event
id). -/
abbrev Token := String

/-- A change-stream event as consumed by `watch_changes`: operation type,
`ns.coll`, optional full document, optional document key, and the event id
that becomes the next resume token. -/
structure ChangeEvent where
  operationType : Option String
  nsColl : Option String
  fullDocument : Option Doc
  documentKey : Option Doc
  eventId : Option Token

/-- The data-side action `process_change` performs for an event (a pure
description of its dispatch; every branch returns normally, so processing
only fails when the sink raises, which the loop model injects). -/
inductive DataOp where
  | upsertDoc (coll : String) (doc : Doc)
  | deleteRow (coll : String) (id : Value)
  | skipOp (coll : String) (op : Option String)

/-- Source `process_change` dispatch: drop events without a truthy
collection; for insert/replace/update require a truthy full document; for
delete require a non-None `_id` in the document key; log-and-skip
everything else.  `none` means the event is silently dropped (an early
`return`), which still counts as successful processing. -/
def process_change (ev : ChangeEvent) : Option DataOp :=
  match ev.nsColl with
  | none => none
  | some coll =>
      if coll = "" then none
      else if ev.operationType = some "insert" ∨ ev.operationType = some "replace" ∨
          ev.operationType = some "update" then
        match ev.fullDocument with
        | none => none
        | some d => if d.isEmpty then none else some (.upsertDoc coll d)
      else if ev.operationType = some "delete" then
        match (ev.documentKey.getD []).lookup "_id" with
        | none => none
        | some .null => none
        | some idv => some (.deleteRow coll idv)
      else some (.skipOp coll ev.operationType)

/-- Loop state of `watch_changes`: the data actions successfully applied to
the sink (in order), the persisted resume token of the scope
(`mongo_resume_tokens`), and the loop's in-memory `resume_token`
variable. -/
structure WatchState where
  dataLog : List DataOp
  persisted : Option Token
  memToken : Option Token

/-- Where an iteration of the event loop can fail: nowhere, inside
`process_change` (any sink round trip raising psycopg2.Error), or inside
`save_resume_token` (whose transaction then does not commit). -/
inductive EvOutcome where
  | ok
  | sinkFailProcess
  | sinkFailSave

/-- One observable event of the watch loop: a delivered change event with
its outcome, or a source-side error raised by the stream itself. -/
inductive WatchEv where
  | change (ev : ChangeEvent) (outcome : EvOutcome)
  | sourceError

/-- One iteration of `watch_changes`: on success apply the data action,
set the in-memory token to the event id and persist it when present; a
raise inside `process_change` reaches the except clause before the token
lines run; a raise inside `save_resume_token` leaves the persisted token
unchanged (the failed transaction does not commit); a source error clears
only the in-memory token.  (Partial data effects of a failed
`process_change` are not tracked — they are immaterial to the token
discipline stated here.) -/
def watchStep (s : WatchState) (we : WatchEv) : WatchState :=
  match we with
  | .sourceError => { s with memToken := none }
  | .change ev outcome =>
      match outcome with
      | .sinkFailProcess => s
      | .sinkFailSave =>
          { dataLog := s.dataLog ++ (process_change ev).toList,
            persisted := s.persisted,
            memToken := ev.eventId }
      | .ok =>
          { dataLog := s.dataLog ++ (process_change ev).toList,
            persisted := if ev.eventId.isSome then ev.eventId else s.persisted,
            memToken := ev.eventId }

/-- The watch loop over a sequence of events. -/
def runWatch (s : WatchState) : List WatchEv → WatchState
  | [] => s
  | we :: rest => runWatch (watchStep s we) rest

/-- C6: resume-token discipline — a raise inside event processing leaves
the whole state (in particular the persisted token) unchanged; a sink-side
failure of the save leaves the persisted token unchanged; a completely
processed event (skipped operation types included — `process_change`
returns normally for them) with an event id persists exactly that id; a
source error never touches the persisted token; and over any run, the
persisted token is the initial one or the id of some successfully
processed event. -/
theorem c6_resume_token_discipline :
    (∀ s ev, watchStep s (.change ev .sinkFailProcess) = s) ∧
    (∀ s ev, (watchStep s (.change ev .sinkFailSave)).persisted = s.persisted) ∧
    (∀ s ev t, ev.eventId = some t →
      (watchStep s (.change ev .ok)).persisted = some t) ∧
    (∀ s, (watchStep s .sourceError).persisted = s.persisted) ∧
    (∀ s evs t, (runWatch s evs).persisted = some t →
      s.persisted = some t ∨
        ∃ ev, WatchEv.change ev EvOutcome.ok ∈ evs ∧ ev.eventId = some t) := by
  refine ⟨fun s ev => rfl, fun s ev => rfl, fun s ev t ht => by simp [watchStep, ht],
    fun s => rfl, ?_⟩
  intro s evs
  induction evs generalizing s with
  | nil => exact fun t ht => Or.inl ht
  | cons we rest ih =>
      intro t ht
      rcases ih (watchStep s we) t ht with hleft | ⟨ev, hmem, hid⟩
      · cases we with
        | sourceError => exact Or.inl hleft
        | change ev outcome =>
            cases outcome with
            | sinkFailProcess => exact Or.inl hleft
            | sinkFailSave => exact Or.inl hleft
            | ok =>
                by_cases hev : ev.eventId.isSome
                · refine Or.inr ⟨ev, List.mem_cons_self _ _, ?_⟩
                  simp only [watchStep, if_pos hev] at hleft
                  exact hleft
                · simp only [watchStep, if_neg hev] at hleft
                  exact Or.inl hleft
      · exact Or.inr ⟨ev, List.mem_cons_of_mem we hmem, hid⟩

/-- Witness for C6 at a concrete event: a skipped operation type ("drop")
processed successfully advances the persisted token to its event id. -/
theorem c6_resume_token_discipline_witness :
    (watchStep ⟨[], none, none⟩
      (.change ⟨some "drop", some "users", none, none, some "t1"⟩ .ok)).persisted =
        some "t1" :=
  c6_resume_token_discipline.2.2.1 ⟨[], none, none⟩
    ⟨some "drop", some "users", none, none, some "t1"⟩ "t1" rfl

/-- Python `s.split(",")` (keeps empty pieces, one piece even for the
empty string). -/
def pySplitCommaAux : List Char → List Char → List String
  | [], acc => [String.mk acc.reverse]
  | c :: rest, acc =>
      if c = ',' then String.mk acc.reverse :: pySplitCommaAux rest []
      else pySplitCommaAux rest (c :: acc)

/-- Python `s.split(",")` on a string. -/
def pySplitComma (s : String) : List String := pySplitCommaAux s.toList []

/-- ASCII whitespace test for Python `str.strip()` (the exotic Unicode
space classes are not modelled). -/
def isPySpace (c : Char) : Bool :=
  c == ' ' || c == Char.ofNat 9 || c == Char.ofNat 10 || c == Char.ofNat 13 ||
    c == Char.ofNat 11 || c == Char.ofNat 12

/-- Python `s.strip()`. -/
def pyStrip (s : String) : String :=
  String.mk (((s.toList.dropWhile isPySpace).reverse.dropWhile isPySpace).reverse)

/-- Source `parse_collections`: None/empty input gives None; otherwise
split on commas, strip, drop empties; an all-empty result gives None. -/
def parse_collections (raw : Option String) : Option (List String) :=
  match raw with
  | none => none
  | some s =>
      if s = "" then none
      else
        let items := ((pySplitComma s).map pyStrip).filter (fun c => c != "")
        if items.isEmpty then none else some items

/-- Source `filter_collections`: with a falsy or all-empty exclude list
return the input; otherwise drop the excluded names. -/
def filter_collections (collections : List String) (exclude : Option (List String)) :
    List String :=
  match exclude with
  | none => collections
  | some ex =>
      let exclude_set := ex.filter (fun c => c != "")
      if exclude_set.isEmpty then collections
      else collections.filter (fun c => !(exclude_set.contains c))

/-- The configuration `main` reads, with connection reachability as
oracles: `dbName` is DB_NAME or MONGO_DB (None when both are missing or
empty), `sourceCollections` is what `list_collection_names()` would
return when COLLECTIONS is unset. -/
structure MainConfig where
  dbName : Option String
  pgConnectOk : Bool
  mongoConnectOk : Bool
  collectionsEnv : Option String
  excludeEnv : Option String
  backfill : Bool
  watch : Bool
  sourceCollections : List String

/-- How `main` ends: with an explicit return code, or never (the watch
loop is `while True` whose handlers always continue).  Uncaught exceptions
elsewhere (e.g. a backfill failure) abort the process without `main`
returning and are outside this model. -/
inductive MainOutcome where
  | exitCode (n : Nat)
  | runsForever
deriving DecidableEq, Repr

/-- Source `main`: missing database name, unreachable sink, or unreachable
source return 1; an empty effective collection list returns 0 immediately
(even when watch is enabled); otherwise backfill (if enabled) runs, and the
process enters the never-returning watch loop when watch is enabled, else
returns 0. -/
def mainResult (cfg : MainConfig) : MainOutcome :=
  if cfg.dbName.isNone then .exitCode 1
  else if !cfg.pgConnectOk then .exitCode 1
  else if !cfg.mongoConnectOk then .exitCode 1
  else
    let collections := match parse_collections cfg.collectionsEnv with
      | none => cfg.sourceCollections
      | some cs => cs
    let collections := filter_collections collections (parse_collections cfg.excludeEnv)
    if collections.isEmpty then .exitCode 0
    else if cfg.watch then .runsForever
    else .exitCode 0

/-- Fatal-startup predicate of the claim: missing source database name,
unreachable sink, or unreachable source. -/
def startupFatal (cfg : MainConfig) : Bool :=
  cfg.dbName.isNone || !cfg.pgConnectOk || !cfg.mongoConnectOk

/-- The collection list `main` ends up with after the COLLECTIONS override
and the exclusion filter. -/
def effectiveCollections (cfg : MainConfig) : List String :=
  filter_collections
    (match parse_collections cfg.collectionsEnv with
     | none => cfg.sourceCollections
     | some cs => cs)
    (parse_collections cfg.excludeEnv)

/-- Configuration for the C9 counterexample: healthy startup, watch
enabled, but the single selected collection is excluded. -/
def c9Cfg : MainConfig :=
  ⟨some "db", true, true, some "a", some "a", true, true, []⟩

/-- C9 counterexample: with watch enabled and a healthy startup, excluding
every selected collection makes `main` return 0 — the claim says 0 is
returned only when backfill has finished and watch is disabled, and that
no other configuration returns 0 while watch is enabled. -/
theorem c9_counterexample :
    mainResult c9Cfg = .exitCode 0 ∧ c9Cfg.watch = true ∧ startupFatal c9Cfg = false := by
  refine ⟨?_, rfl, rfl⟩
  rfl

/-- C9 amended: `main` returns 1 exactly on fatal startup errors; it
returns 0 exactly when startup is healthy and either the effective
collection list is empty (regardless of watch) or watch is disabled; and
it never returns (the watch loop) exactly when startup is healthy, the
collection list is non-empty, and watch is enabled. -/
theorem c9_exit_codes_amended (cfg : MainConfig) :
    (mainResult cfg = .exitCode 1 ↔ startupFatal cfg = true) ∧
    (mainResult cfg = .exitCode 0 ↔
      (startupFatal cfg = false ∧
        ((effectiveCollections cfg).isEmpty = true ∨ cfg.watch = false))) ∧
    (mainResult cfg = .runsForever ↔
      (startupFatal cfg = false ∧ (effectiveCollections cfg).isEmpty = false ∧
        cfg.watch = true)) := by
  unfold mainResult startupFatal effectiveCollections
  by_cases h1 : cfg.dbName.isNone <;> by_cases h2 : cfg.pgConnectOk <;>
    by_cases h3 : cfg.mongoConnectOk <;>
      by_cases h4 : (filter_collections
          (match parse_collections cfg.collectionsEnv with
           | none => cfg.sourceCollections
           | some cs => cs)
          (parse_collections cfg.excludeEnv)).isEmpty <;>
        by_cases h5 : cfg.watch <;>
          simp [h1, h2, h3, h4, h5]
